import Mathlib

/-!
Verification development for the RAG_Runner repository.

The repository contains two agentic RAG variants (document retrieval and
NL2SQL).  The present file gives a shallow embedding of

* the frontend SSE event handlers and the citation-tag parser of
  `app/page.tsx` / `frontend/app/page.tsx` (translated from the source), and
* the iterative retrieval-review controller, whose Python implementation
  (`agentic_doc_chunk_rag.py`, `agentic_nl2sql.py`) is not part of the
  source tree here; it is modelled from the specification and the
  repository's own documentation of its `ChatState`.

Theorems at the end settle the frozen claims about the program.
-/

namespace RagRunner

/-! ## JavaScript values

A minimal model of the dynamic values the frontend receives from
`JSON.parse`.  Numbers are modelled as integers: the handlers under study
only test them for truthiness, never compute with them. -/

inductive JSVal where
  | null
  | bool (b : Bool)
  | num (n : Int)
  | str (s : String)
  | arr (elems : List JSVal)
  | obj (fields : List (String × JSVal))

/-- Property access `v?.k` with optional chaining: `none` models the
JavaScript `undefined`.  Access on `null` or on a non-object yields
`undefined`, as in the source's `data?.message`. -/
def jsGet : JSVal → String → Option JSVal
  | JSVal.obj fields, k => (fields.find? (fun f => f.1 == k)).map (fun f => f.2)
  | _, _ => none

/-- JavaScript truthiness of a possibly-undefined value. -/
def truthy : Option JSVal → Bool
  | none => false
  | some JSVal.null => false
  | some (JSVal.bool b) => b
  | some (JSVal.num n) => n != 0
  | some (JSVal.str s) => s != ""
  | some (JSVal.arr _) => true
  | some (JSVal.obj _) => true

mutual
/-- JavaScript string coercion, as performed by `responseText += data.chunk`
when the payload field is not a string. -/
def coerceStr : JSVal → String
  | JSVal.null => "null"
  | JSVal.bool b => if b then "true" else "false"
  | JSVal.num n => toString n
  | JSVal.str s => s
  | JSVal.arr es => String.intercalate "," (coerceElems es)
  | JSVal.obj _ => "[object Object]"

/-- Elementwise coercion inside an array: `Array.prototype.join` renders a
`null` element as the empty string. -/
def coerceElems : List JSVal → List String
  | [] => []
  | JSVal.null :: es => "" :: coerceElems es
  | e :: es => coerceStr e :: coerceElems es
end

/-- Embedding of the frontend's `safeParseJSON` (app/page.tsx):
`data ? JSON.parse(data) : null`, with a thrown parse error caught and
converted to `null`.  The platform's `JSON.parse` is passed in as `parse`;
`Except.error` models a thrown exception. -/
def safeParseJSON (parse : String → Except String JSVal) (data : String) : JSVal :=
  if data = "" then JSVal.null
  else
    match parse data with
    | Except.ok v => v
    | Except.error _ => JSVal.null

/-! ## Frontend messages and handler state (app/page.tsx, first variant) -/

inductive MsgType where
  | user
  | status
  | assistant
deriving DecidableEq

inductive MsgIcon where
  | search
  | analyze
deriving DecidableEq

inductive MsgColor where
  | blue
  | purple
deriving DecidableEq

/-- The frontend `Message` record.  The `citations` and `thought_process`
fields are assigned straight from the parsed payload without validation in
the source, so they are kept as raw `JSVal`s here. -/
structure Message where
  type : MsgType
  content : String
  icon : Option MsgIcon := none
  color : Option MsgColor := none
  citations : Option JSVal := none
  thought_process : Option JSVal := none
  completed : Option Bool := none

/-- The mutable state the SSE listeners of `handleSubmit` close over:
the `messages` React state, the accumulated `responseText`, and the
`currentCitations` / `currentThoughtProcess` locals. -/
structure UIState where
  messages : List Message
  responseText : String
  currentCitations : Option JSVal
  currentThoughtProcess : Option JSVal

def searchingMessage : Message :=
  { type := MsgType.status, content := "Searching for documents...",
    icon := some MsgIcon.search, color := some MsgColor.blue }

def analyzingMessage : Message :=
  { type := MsgType.status, content := "Reviewing the documents...",
    icon := some MsgIcon.analyze, color := some MsgColor.purple,
    completed := some false }

/-- The `review` listener marks the last message as completed when it is a
status bubble. -/
def completeLastIfStatus (ms : List Message) : List Message :=
  match ms.getLast? with
  | some m =>
      if m.type = MsgType.status then
        ms.dropLast ++ [{ m with completed := some true }]
      else ms
  | none => ms

/-- Helper for the `response_chunk` listener's
`messages.findLast(m => m.type === "status")` update: mark the first status
message of the given (reversed) list. -/
def completeFirstStatus : List Message → List Message
  | [] => []
  | m :: rest =>
      if m.type = MsgType.status then { m with completed := some true } :: rest
      else m :: completeFirstStatus rest

def completeLastStatus (ms : List Message) : List Message :=
  (completeFirstStatus ms.reverse).reverse

def assistantMessage (content : String) (cits tps : Option JSVal) : Message :=
  { type := MsgType.assistant, content := content,
    citations := cits, thought_process := tps }

/-- The `retrieve` SSE listener. -/
def onRetrieve (parse : String → Except String JSVal) (d : String) (s : UIState) : UIState :=
  if truthy (jsGet (safeParseJSON parse d) "message") then
    { s with messages := s.messages ++ [searchingMessage] }
  else s

/-- The `review` SSE listener. -/
def onReview (parse : String → Except String JSVal) (d : String) (s : UIState) : UIState :=
  if truthy (jsGet (safeParseJSON parse d) "message") then
    { s with messages := completeLastIfStatus s.messages ++ [analyzingMessage] }
  else s

/-- The `response_chunk` SSE listener: append the chunk to the response
buffer, mark the last status bubble completed, and update or append the
assistant message. -/
def onResponseChunk (parse : String → Except String JSVal) (d : String) (s : UIState) : UIState :=
  let data := safeParseJSON parse d
  if truthy (jsGet data "chunk") then
    let chunkText := coerceStr ((jsGet data "chunk").getD JSVal.null)
    let newText := s.responseText ++ chunkText
    let ms := completeLastStatus s.messages
    let ms2 :=
      match ms.getLast? with
      | some m =>
          if m.type = MsgType.assistant then
            ms.dropLast ++
              [{ m with content := newText, citations := s.currentCitations,
                        thought_process := s.currentThoughtProcess }]
          else ms ++ [assistantMessage newText s.currentCitations s.currentThoughtProcess]
      | none => ms ++ [assistantMessage newText s.currentCitations s.currentThoughtProcess]
    { s with responseText := newText, messages := ms2 }
  else s

/-- The `final_payload` SSE listener: store the payload's citations and
thought process and attach them to the trailing assistant message. -/
def onFinalPayload (parse : String → Except String JSVal) (d : String) (s : UIState) : UIState :=
  let data := safeParseJSON parse d
  if truthy (jsGet data "payload") then
    let payload := (jsGet data "payload").getD JSVal.null
    let cits := jsGet payload "citations"
    let tps := jsGet payload "thought_process"
    let ms :=
      match s.messages.getLast? with
      | some m =>
          if m.type = MsgType.assistant then
            s.messages.dropLast ++ [{ m with citations := cits, thought_process := tps }]
          else s.messages
      | none => s.messages
    { s with currentCitations := cits, currentThoughtProcess := tps, messages := ms }
  else s

/-! ## Citation-tag parsing (frontend/app/page.tsx, `parseCitTags`)

The source replaces every occurrence of the regex `<cit>([^<]+)<\/cit>` by a
bracketed reference marker, keeping a map from trimmed display text to
reference number and a parallel `citations` array. -/

/-- The frontend `Citation` record as produced by `parseCitTags`. -/
structure Citation where
  id : String
  display_text : String
  source_file : String
  source_pages : Nat
  reference_number : Nat
deriving DecidableEq

def citOpen : List Char := ['<', 'c', 'i', 't', '>']

def citClose : List Char := ['<', '/', 'c', 'i', 't', '>']

/-- Match the regex `<cit>([^<]+)<\/cit>` at the start of `l`.  Because
`[^<]+` cannot match `<`, a match exists exactly when `l` starts with
`<cit>`, followed by a nonempty run of non-`<` characters, followed
immediately by `</cit>`.  On success, returns the captured content and the
remainder of the input after the match. -/
def tryMatchCit (l : List Char) : Option (List Char × List Char) :=
  if citOpen.isPrefixOf l then
    if ((l.drop 5).takeWhile (fun c => c ≠ '<')).isEmpty then none
    else if citClose.isPrefixOf ((l.drop 5).dropWhile (fun c => c ≠ '<')) then
      some ((l.drop 5).takeWhile (fun c => c ≠ '<'),
            ((l.drop 5).dropWhile (fun c => c ≠ '<')).drop 6)
    else none
  else none

theorem tryMatchCit_shrink {l content rest : List Char}
    (h : tryMatchCit l = some (content, rest)) : rest.length < l.length := by
  unfold tryMatchCit at h
  split at h
  case isTrue hp =>
    split at h
    case isTrue he => exact absurd h (by simp)
    case isFalse he =>
      split at h
      case isTrue hc =>
        rw [Option.some.injEq, Prod.mk.injEq] at h
        have hrest : rest = (List.dropWhile (fun c => decide (c ≠ '<')) (l.drop 5)).drop 6 :=
          h.2.symm
        have h1 : ((List.dropWhile (fun c => decide (c ≠ '<')) (l.drop 5)).drop 6).length ≤
            (List.dropWhile (fun c => decide (c ≠ '<')) (l.drop 5)).length := by
          rw [List.length_drop]; omega
        have h2 : (List.dropWhile (fun c => decide (c ≠ '<')) (l.drop 5)).length ≤
            (l.drop 5).length :=
          List.Sublist.length_le (List.dropWhile_sublist _)
        have h3 : (l.drop 5).length = l.length - 5 := List.length_drop 5 l
        have h4 : 0 < l.length := by
          cases l with
          | nil => exact absurd hp (by decide)
          | cons a as => simp
        rw [hrest]
        omega
      case isFalse hc => exact absurd h (by simp)
  case isFalse hp => exact absurd h (by simp)

/-- One token of the regex scan: either a literal character copied to the
output, or a whole `<cit>…</cit>` match carrying its raw captured content. -/
inductive Tok where
  | lit (c : Char)
  | tag (raw : String)
deriving DecidableEq

/-- The left-to-right global scan of `text.replace(citRegex, …)`:
at each position, either the regex matches (producing a `tag` token and
resuming after the match) or the current character is copied through. -/
def tokenize (l : List Char) : List Tok :=
  match h : tryMatchCit l with
  | some (content, rest) => Tok.tag (String.mk content) :: tokenize rest
  | none =>
      match l with
      | [] => []
      | c :: cs => Tok.lit c :: tokenize cs
termination_by l.length
decreasing_by
  · exact tryMatchCit_shrink h
  · simp

/-- Numeric value of a digit run, as `parseInt(…, 10)`. -/
def digitsVal (ds : List Char) : Nat :=
  ds.foldl (fun acc c => acc * 10 + (c.toNat - 48)) 0

/-- First maximal digit run of a string, as `s.match(/\d+/)`. -/
def firstNat? (s : String) : Option Nat :=
  let ds := (s.data.dropWhile (fun c => !c.isDigit)).takeWhile Char.isDigit
  if ds.isEmpty then none else some (digitsVal ds)

/-- Build one `Citation` from the trimmed display text, as the callback in
`parseCitTags` does: split on `-`, the part before the first hyphen is the
source file, the first digit run of the second part (if present and
nonempty) is the page number, defaulting to 0. -/
def buildCitation (cleanDisplay : String) (refNumber : Nat) : Citation :=
  let parts := cleanDisplay.splitOn "-"
  let sourceFile := (parts.headD "").trim
  let pages :=
    match parts.get? 1 with
    | some p => if p = "" then 0 else (firstNat? p.trim).getD 0
    | none => 0
  { id := cleanDisplay, display_text := cleanDisplay, source_file := sourceFile,
    source_pages := pages, reference_number := refNumber }

/-- The bracketed reference marker emitted in place of a tag. -/
def markerChars (n : Nat) : List Char :=
  ("[" ++ toString n ++ "]").data

/-- The replace callback of `parseCitTags`, folded over the token list: a
known (trimmed) display text reuses its reference number, a new one is
appended to the citations array with number `citations.length + 1`.  The
source keys its `citationMap` by the trimmed display text; since map
entries and citation records are created together, looking the display
text up in the citations array is equivalent. -/
def processTokens : List Tok → List Citation → List Char × List Citation
  | [], acc => ([], acc)
  | Tok.lit c :: ts, acc =>
      let r := processTokens ts acc
      (c :: r.1, r.2)
  | Tok.tag raw :: ts, acc =>
      let cleanDisplay := raw.trim
      match acc.find? (fun c => c.display_text == cleanDisplay) with
      | some c =>
          let r := processTokens ts acc
          (markerChars c.reference_number ++ r.1, r.2)
      | none =>
          let r := processTokens ts (acc ++ [buildCitation cleanDisplay (acc.length + 1)])
          (markerChars (acc.length + 1) ++ r.1, r.2)

/-- Embedding of `parseCitTags`: returns the processed text and the
citations array. -/
def parseCitTags (text : String) : String × List Citation :=
  let r := processTokens (tokenize text.data) []
  (String.mk r.1, r.2)

/-! Specification-side characterisation used to state the claim about
`parseCitTags`. -/

/-- The trimmed display texts of all matched tags, in match order. -/
def tagDisplays : List Tok → List String
  | [] => []
  | Tok.lit _ :: ts => tagDisplays ts
  | Tok.tag raw :: ts => raw.trim :: tagDisplays ts

/-- First-occurrence deduplication, relative to an already-seen list. -/
def dedupFrom (seen : List String) : List String → List String
  | [] => []
  | d :: ds => if d ∈ seen then dedupFrom seen ds else d :: dedupFrom (seen ++ [d]) ds

/-- Position (starting at `n`) of the first occurrence of `d`. -/
def refIndex (d : String) : List String → Nat → Option Nat
  | [], _ => none
  | x :: xs, n => if x = d then some n else refIndex d xs (n + 1)

/-- Expected rendering: each tag is replaced by the bracketed 1-based
position of its trimmed display text in the deduplicated display list. -/
def specRenderFrom (finalDs : List String) : List Tok → List Char
  | [] => []
  | Tok.lit c :: ts => c :: specRenderFrom finalDs ts
  | Tok.tag raw :: ts =>
      markerChars ((refIndex raw.trim finalDs 1).getD 0) ++ specRenderFrom finalDs ts

/-- The citations carry consecutive reference numbers starting at `n`. -/
def RefSeq : List Citation → Nat → Prop
  | [], _ => True
  | c :: cs, n => c.reference_number = n ∧ RefSeq cs (n + 1)

/-! ## The retrieval-review controller

Modelled from the spec: the controller implementations
(`agentic_doc_chunk_rag.py`, `agentic_nl2sql.py`) are not part of the
source tree; the state machine below follows spec sections 3, 4 and 7 and
the `ChatState` record documented in the repository's own
`agentic_doc_chunk_rag` documentation. -/

/-- One candidate unit of evidence (spec section 3): stable identifier,
content, provenance, relevance score. -/
structure EvidenceItem where
  id : String
  content : String
  source_file : String
  source_pages : Nat
  score : Int
deriving DecidableEq

/-- Citation entry of the final answer (the spec's `EvidenceRef`). -/
structure EvidenceRef where
  id : String
  source_file : String
  source_pages : Nat
deriving DecidableEq

def mkRef (e : EvidenceItem) : EvidenceRef :=
  { id := e.id, source_file := e.source_file, source_pages := e.source_pages }

inductive Decision where
  | retry
  | finalize
deriving DecidableEq

/-- Modelled from the spec: the `ReviewVerdict` — rationale text, accepted
and rejected indices into the current batch, and a retry/finalize
decision. -/
structure Verdict where
  thought_process : String
  valid_results : List Nat
  invalid_results : List Nat
  decision : Decision
deriving DecidableEq

/-- Modelled from the spec: the external collaborators (completion,
retrieval/execution, review, synthesis).  `Except.error` models a
collaborator failure: for `search` it is a `RetrievalError` or
`ExecutionError`, for `plan` a `GenerationError`, for `reviewVerdict` a
`GenerationError`/`ReviewParseError`. -/
structure Collaborators where
  plan : String → List String → List String → Except String String
  search : String → List String → Except String (List EvidenceItem)
  reviewVerdict : String → List EvidenceItem → Except String Verdict
  synthesizeText : String → List EvidenceItem → String

structure Config where
  maxAttempts : Nat
  topK : Nat
deriving DecidableEq

/-- Modelled from the spec and from the `ChatState` documented in the
repository: the per-session state. `processed_ids` is the SeenSet,
`vetted_results` the AcceptedSet, `discarded_results` the RejectedSet. -/
structure ChatState where
  user_input : String
  current_results : List EvidenceItem
  vetted_results : List EvidenceItem
  discarded_results : List EvidenceItem
  processed_ids : List String
  reviews : List String
  final_answer : Option String
deriving DecidableEq

def initState (question : String) : ChatState :=
  { user_input := question, current_results := [], vetted_results := [],
    discarded_results := [], processed_ids := [], reviews := [],
    final_answer := none }

/-- The Retriever's post-filter (spec 4.3): drop every item whose id is in
the exclusion set, and any within-batch duplicate id, keeping order. -/
def excludeSeen : List EvidenceItem → List String → List EvidenceItem
  | [], _ => []
  | x :: xs, seen =>
      if x.id ∈ seen then excludeSeen xs seen
      else x :: excludeSeen xs (x.id :: seen)

/-- Modelled from the spec (4.3): the Retriever queries the search
collaborator with the SeenSet exclusion, treats a collaborator failure as a
recoverable empty result, applies the seen-id post-filter, and returns at
most `topK` items. -/
def retrieve (C : Collaborators) (topK : Nat) (query : String) (seen : List String) :
    List EvidenceItem :=
  match C.search query seen with
  | Except.error _ => []
  | Except.ok items => (excludeSeen items seen).take topK

/-- Schema validation of a reviewer verdict over a batch of size `n`
(spec 4.5): indices in range and accepted/rejected disjoint. -/
def validVerdict (v : Verdict) (n : Nat) : Bool :=
  v.valid_results.all (fun i => decide (i < n)) &&
  v.invalid_results.all (fun i => decide (i < n)) &&
  v.valid_results.all (fun i => decide (i ∉ v.invalid_results))

/-- Modelled from the spec (4.5): fold a validated verdict into the state —
accepted items extend the AcceptedSet, rejected ones the RejectedSet, every
batch id is added to the SeenSet exactly once (idempotent add), and the
rationale is appended to the review history. -/
def applyVerdict (st : ChatState) (batch : List EvidenceItem) (v : Verdict) : ChatState :=
  { st with
    current_results := batch,
    vetted_results := st.vetted_results ++ v.valid_results.filterMap (fun i => batch.get? i),
    discarded_results :=
      st.discarded_results ++ v.invalid_results.filterMap (fun i => batch.get? i),
    processed_ids :=
      st.processed_ids ++
        (batch.map EvidenceItem.id).filter (fun i => decide (i ∉ st.processed_ids)),
    reviews := st.reviews ++ [v.thought_process] }

/-- Modelled from the spec (4.5): the REVIEW step.  Malformed reviewer
output (collaborator error or failed schema validation) is an error. -/
def reviewStep (C : Collaborators) (st : ChatState) (batch : List EvidenceItem) :
    Except String (ChatState × Decision) :=
  match C.reviewVerdict st.user_input batch with
  | Except.error msg => Except.error msg
  | Except.ok v =>
      if validVerdict v batch.length then Except.ok (applyVerdict st batch v, v.decision)
      else Except.error "review verdict failed schema validation"

/-- The synthesized final answer: text, citation list, and whether the
answer explicitly signals insufficient evidence. -/
structure FinalAnswer where
  text : String
  citations : List EvidenceRef
  insufficient : Bool
deriving DecidableEq

def insufficientMessage : String :=
  "Insufficient evidence: no accepted evidence supports an answer to the question."

/-- Modelled from the spec (4.6, 8, 9): the Synthesizer depends only on the
question and the AcceptedSet in stored order; with an empty AcceptedSet it
explicitly reports insufficiency instead of fabricating an answer, and its
citations are drawn from the AcceptedSet. -/
def synthesizeFromState (C : Collaborators) (st : ChatState) : FinalAnswer :=
  if st.vetted_results.isEmpty then
    { text := insufficientMessage, citations := [], insufficient := true }
  else
    { text := C.synthesizeText st.user_input st.vetted_results,
      citations := st.vetted_results.map mkRef,
      insufficient := false }

/-- Wire events of the progress stream (spec section 6). -/
inductive Event where
  | retrieve (message : String)
  | review (message : String)
  | responseChunk (chunk : String)
  | finalPayload (citations : List EvidenceRef) (thought_process : List String)
  | serverError (message : String)
  | streamEnd
deriving DecidableEq

/-- Controller states (spec 4.1). -/
inductive StateTag where
  | initS
  | planS
  | actS
  | reviewS
  | finalizeS
  | doneS
  | failedS
deriving DecidableEq

/-- The unrecoverable error kinds (spec section 7).  `RetrievalError` and
`ExecutionError` are recoverable by design and therefore are not failure
kinds: the ACT step converts them into an empty (negative) evidence batch
for the Reviewer. -/
inductive ErrKind where
  | generation
  | reviewParse
  | planningStalled
deriving DecidableEq

inductive Outcome where
  | done (answer : FinalAnswer)
  | failed (kind : ErrKind) (message : String)
deriving DecidableEq

/-- Result of a session: terminal outcome, emitted events, the sequence of
controller states entered, the `ChatState` after each REVIEW completion,
and the state handed to FINALIZE (if the session finalized). -/
structure RunResult where
  outcome : Outcome
  events : List Event
  states : List StateTag
  trace : List ChatState
  final : Option ChatState
deriving DecidableEq

/-- FINALIZE → DONE (spec 4.1/6): synthesize, stream the answer text, emit
the final payload, then the stream terminator. -/
def finishWith (C : Collaborators) (st : ChatState) : RunResult :=
  { outcome := Outcome.done (synthesizeFromState C st),
    events := [Event.responseChunk (synthesizeFromState C st).text,
               Event.finalPayload (synthesizeFromState C st).citations st.reviews,
               Event.streamEnd],
    states := [StateTag.finalizeS, StateTag.doneS],
    trace := [],
    final := some st }

/-- Transition to the absorbing FAILED state (spec section 7): emit
`server-error`, then `end`; no answer content is produced. -/
def failResult (k : ErrKind) (msg : String) : RunResult :=
  { outcome := Outcome.failed k msg,
    events := [Event.serverError msg, Event.streamEnd],
    states := [StateTag.failedS],
    trace := [],
    final := none }

def prefixRun (evs : List Event) (sts : List StateTag) (tr : List ChatState)
    (r : RunResult) : RunResult :=
  { outcome := r.outcome, events := evs ++ r.events, states := sts ++ r.states,
    trace := tr ++ r.trace, final := r.final }

/-- Modelled from the spec (4.1, 4.2, 7): the controller loop.  `fuel` is
the remaining attempt budget; each iteration enters PLAN once.  A planner
collaborator failure is a `GenerationError`, an empty request is the
planner stalling (spec 4.2: a PLAN failure), a request byte-identical to
the immediately preceding one forces finalize (spec 4.2/8 Scenario C), a
reviewer failure is unrecoverable, and an exhausted budget forces finalize
with whatever evidence exists. -/
def loop (C : Collaborators) (cfg : Config) :
    Nat → ChatState → Option String → RunResult
  | 0, st, _ => finishWith C st
  | fuel + 1, st, prev =>
      match C.plan st.user_input st.reviews st.processed_ids with
      | Except.error msg =>
          prefixRun [] [StateTag.planS] [] (failResult ErrKind.generation msg)
      | Except.ok req =>
          if req = "" then
            prefixRun [] [StateTag.planS] []
              (failResult ErrKind.planningStalled "planner could not produce a request")
          else if prev = some req then
            prefixRun [] [StateTag.planS] [] (finishWith C st)
          else
            match reviewStep C st (retrieve C cfg.topK req st.processed_ids) with
            | Except.error msg =>
                prefixRun [Event.retrieve req, Event.review "reviewing results"]
                  [StateTag.planS, StateTag.actS, StateTag.reviewS] []
                  (failResult ErrKind.reviewParse msg)
            | Except.ok (st2, Decision.finalize) =>
                prefixRun [Event.retrieve req, Event.review "reviewing results"]
                  [StateTag.planS, StateTag.actS, StateTag.reviewS] [st2]
                  (finishWith C st2)
            | Except.ok (st2, Decision.retry) =>
                prefixRun [Event.retrieve req, Event.review "reviewing results"]
                  [StateTag.planS, StateTag.actS, StateTag.reviewS] [st2]
                  (loop C cfg fuel st2 (some req))

/-- Modelled from the spec: a full session, from INIT with an empty
Evidence Store, with the configured attempt budget. -/
def run (C : Collaborators) (cfg : Config) (question : String) : RunResult :=
  prefixRun [] [StateTag.initS] [] (loop C cfg cfg.maxAttempts (initState question) none)

/-- Events that carry final-answer content (`response_chunk` and
`final_payload`). -/
def isAnswerEvent : Event → Bool
  | Event.responseChunk _ => true
  | Event.finalPayload _ _ => true
  | _ => false

/-! ## Lemmas about the Retriever -/

theorem excludeSeen_not_seen :
    ∀ (l : List EvidenceItem) (seen : List String) (x : EvidenceItem),
      x ∈ excludeSeen l seen → x.id ∉ seen := by
  intro l
  induction l with
  | nil => intro seen x hx; simp [excludeSeen] at hx
  | cons a as ih =>
    intro seen x hx
    by_cases ha : a.id ∈ seen
    · rw [excludeSeen, if_pos ha] at hx
      exact ih seen x hx
    · rw [excludeSeen, if_neg ha] at hx
      rcases List.mem_cons.mp hx with h | h
      · subst h; exact ha
      · intro hmem
        exact (ih _ x h) (List.mem_cons_of_mem _ hmem)

theorem excludeSeen_nodup :
    ∀ (l : List EvidenceItem) (seen : List String),
      ((excludeSeen l seen).map EvidenceItem.id).Nodup := by
  intro l
  induction l with
  | nil => intro seen; simp [excludeSeen]
  | cons a as ih =>
    intro seen
    by_cases ha : a.id ∈ seen
    · rw [excludeSeen, if_pos ha]; exact ih seen
    · rw [excludeSeen, if_neg ha]
      rw [List.map_cons, List.nodup_cons]
      refine ⟨?_, ih _⟩
      intro hmem
      rcases List.mem_map.mp hmem with ⟨y, hy, hid⟩
      exact (excludeSeen_not_seen as (a.id :: seen) y hy) (hid ▸ List.mem_cons_self _ _)

theorem retrieve_not_seen (C : Collaborators) (topK : Nat) (q : String) (seen : List String)
    (x : EvidenceItem) (hx : x ∈ retrieve C topK q seen) : x.id ∉ seen := by
  unfold retrieve at hx
  cases hs : C.search q seen with
  | error e => rw [hs] at hx; simp at hx
  | ok items =>
    rw [hs] at hx
    exact excludeSeen_not_seen items seen x ((List.take_sublist _ _).subset hx)

theorem retrieve_nodup (C : Collaborators) (topK : Nat) (q : String) (seen : List String) :
    ((retrieve C topK q seen).map EvidenceItem.id).Nodup := by
  unfold retrieve
  cases hs : C.search q seen with
  | error e => simp
  | ok items =>
    exact List.Nodup.sublist ((List.take_sublist _ _).map EvidenceItem.id)
      (excludeSeen_nodup items seen)

theorem retrieve_length (C : Collaborators) (topK : Nat) (q : String) (seen : List String) :
    (retrieve C topK q seen).length ≤ topK := by
  unfold retrieve
  cases hs : C.search q seen with
  | error e => simp
  | ok items => simpa using List.length_take_le topK (excludeSeen items seen)

theorem retrieve_of_search_error (C : Collaborators) (topK : Nat) (q : String)
    (seen : List String) (e : String) (h : C.search q seen = Except.error e) :
    retrieve C topK q seen = [] := by
  unfold retrieve
  rw [h]

/-! ## The partition invariant -/

/-- AcceptedSet and RejectedSet are disjoint and both are covered by the
SeenSet. -/
def Inv (st : ChatState) : Prop :=
  (∀ a ∈ st.vetted_results, a.id ∉ st.discarded_results.map EvidenceItem.id) ∧
  (∀ a ∈ st.vetted_results, a.id ∈ st.processed_ids) ∧
  (∀ a ∈ st.discarded_results, a.id ∈ st.processed_ids)

theorem mem_of_getq {α : Type} :
    ∀ (l : List α) (i : Nat) (a : α), l.get? i = some a → a ∈ l := by
  intro l
  induction l with
  | nil => intro i a h; cases i <;> simp [List.get?] at h
  | cons x xs ih =>
    intro i a h
    cases i with
    | zero =>
      rw [List.get?] at h
      cases h
      exact List.mem_cons_self _ _
    | succ n => exact List.mem_cons_of_mem _ (ih n a h)

theorem nodup_ids_getq_ne {l : List EvidenceItem} (h : (l.map EvidenceItem.id).Nodup)
    {i j : Nat} {a b : EvidenceItem} (hij : i ≠ j)
    (ha : l.get? i = some a) (hb : l.get? j = some b) : a.id ≠ b.id := by
  have ha2 : (l.map EvidenceItem.id).get? i = some a.id := by rw [List.get?_map, ha]; rfl
  have hb2 : (l.map EvidenceItem.id).get? j = some b.id := by rw [List.get?_map, hb]; rfl
  intro he
  apply hij
  have hi : i < (l.map EvidenceItem.id).length := by
    by_contra hcon
    rw [List.get?_eq_none.mpr (Nat.le_of_not_lt hcon)] at ha2
    exact Option.noConfusion ha2
  exact List.get?_inj hi h (by rw [ha2, hb2, he])

theorem applyVerdict_inv (st : ChatState) (batch : List EvidenceItem) (v : Verdict)
    (hInv : Inv st)
    (hnew : ∀ b ∈ batch, b.id ∉ st.processed_ids)
    (hnd : (batch.map EvidenceItem.id).Nodup)
    (hval : validVerdict v batch.length = true) :
    Inv (applyVerdict st batch v) := by
  obtain ⟨hdisj, hvp, hdp⟩ := hInv
  rw [validVerdict, Bool.and_eq_true, Bool.and_eq_true] at hval
  obtain ⟨⟨hv1, hv2⟩, hv3⟩ := hval
  rw [List.all_eq_true] at hv3
  have hv3m : ∀ i ∈ v.valid_results, i ∉ v.invalid_results := by
    intro i hi
    exact of_decide_eq_true (hv3 i hi)
  have hVmem : ∀ a, a ∈ v.valid_results.filterMap (fun i => batch.get? i) →
      ∃ i ∈ v.valid_results, batch.get? i = some a := by
    intro a ha
    rcases List.mem_filterMap.mp ha with ⟨i, hi, hgi⟩
    exact ⟨i, hi, hgi⟩
  have hWmem : ∀ a, a ∈ v.invalid_results.filterMap (fun i => batch.get? i) →
      ∃ i ∈ v.invalid_results, batch.get? i = some a := by
    intro a ha
    rcases List.mem_filterMap.mp ha with ⟨i, hi, hgi⟩
    exact ⟨i, hi, hgi⟩
  have hprocessed : ∀ b ∈ batch, b.id ∈ (applyVerdict st batch v).processed_ids := by
    intro b hb
    rw [applyVerdict]
    refine List.mem_append_right _ ?_
    refine List.mem_filter.mpr ⟨List.mem_map_of_mem EvidenceItem.id hb, ?_⟩
    exact decide_eq_true (hnew b hb)
  have hkeep : ∀ x ∈ st.processed_ids, x ∈ (applyVerdict st batch v).processed_ids := by
    intro x hx
    rw [applyVerdict]
    exact List.mem_append_left _ hx
  refine ⟨?_, ?_, ?_⟩
  · -- disjointness
    intro a ha hmem
    rw [applyVerdict] at ha hmem
    rw [List.map_append] at hmem
    rcases List.mem_append.mp ha with haOld | haNew
    · rcases List.mem_append.mp hmem with hdOld | hdNew
      · exact hdisj a haOld hdOld
      · rcases List.mem_map.mp hdNew with ⟨w, hwW, hwid⟩
        rcases hWmem w hwW with ⟨j, _, hgj⟩
        have hwB : w ∈ batch := mem_of_getq batch j w hgj
        exact hnew w hwB (hwid ▸ hvp a haOld)
    · rcases hVmem a haNew with ⟨i, hiV, hgi⟩
      have haB : a ∈ batch := mem_of_getq batch i a hgi
      rcases List.mem_append.mp hmem with hdOld | hdNew
      · rcases List.mem_map.mp hdOld with ⟨dd, hdd, hddid⟩
        exact hnew a haB (hddid ▸ hdp dd hdd)
      · rcases List.mem_map.mp hdNew with ⟨w, hwW, hwid⟩
        rcases hWmem w hwW with ⟨j, hjW, hgj⟩
        have hij : i ≠ j := fun he => hv3m i hiV (he ▸ hjW)
        exact nodup_ids_getq_ne hnd hij hgi hgj (hwid ▸ rfl)
  · -- accepted ids are seen
    intro a ha
    rw [applyVerdict] at ha
    rcases List.mem_append.mp ha with haOld | haNew
    · exact hkeep a.id (hvp a haOld)
    · rcases hVmem a haNew with ⟨i, _, hgi⟩
      exact hprocessed a (mem_of_getq batch i a hgi)
  · -- rejected ids are seen
    intro a ha
    rw [applyVerdict] at ha
    rcases List.mem_append.mp ha with haOld | haNew
    · exact hkeep a.id (hdp a haOld)
    · rcases hWmem a haNew with ⟨i, _, hgi⟩
      exact hprocessed a (mem_of_getq batch i a hgi)

theorem reviewStep_ok {C : Collaborators} {st : ChatState} {batch : List EvidenceItem}
    {st2 : ChatState} {d : Decision}
    (h : reviewStep C st batch = Except.ok (st2, d)) :
    ∃ v, C.reviewVerdict st.user_input batch = Except.ok v ∧
      validVerdict v batch.length = true ∧
      st2 = applyVerdict st batch v ∧ d = v.decision := by
  unfold reviewStep at h
  cases hv : C.reviewVerdict st.user_input batch with
  | error m => rw [hv] at h; exact absurd h (by simp)
  | ok v =>
    rw [hv] at h
    dsimp only at h
    by_cases hval : validVerdict v batch.length = true
    · rw [if_pos hval] at h
      rw [Except.ok.injEq, Prod.mk.injEq] at h
      exact ⟨v, rfl, hval, h.1.symm, h.2.symm⟩
    · rw [if_neg hval] at h
      exact absurd h (by simp)

theorem loop_trace_inv (C : Collaborators) (cfg : Config) :
    ∀ (fuel : Nat) (st : ChatState) (prev : Option String), Inv st →
      ∀ s ∈ (loop C cfg fuel st prev).trace, Inv s := by
  intro fuel
  induction fuel with
  | zero =>
    intro st prev hInv s hs
    simp [loop, finishWith] at hs
  | succ n ih =>
    intro st prev hInv s hs
    simp only [loop] at hs
    cases hp : C.plan st.user_input st.reviews st.processed_ids with
    | error msg =>
      rw [hp] at hs
      simp [prefixRun, failResult] at hs
    | ok req =>
      rw [hp] at hs
      dsimp only at hs
      by_cases hreq : req = ""
      · rw [if_pos hreq] at hs
        simp [prefixRun, failResult] at hs
      · rw [if_neg hreq] at hs
        by_cases hprev : prev = some req
        · rw [if_pos hprev] at hs
          simp [prefixRun, finishWith] at hs
        · rw [if_neg hprev] at hs
          cases hrev : reviewStep C st (retrieve C cfg.topK req st.processed_ids) with
          | error msg =>
            rw [hrev] at hs
            simp [prefixRun, failResult] at hs
          | ok p =>
            rw [hrev] at hs
            obtain ⟨st2, d⟩ := p
            obtain ⟨v, hvv, hval, hst2, hd⟩ := reviewStep_ok hrev
            have hInv2 : Inv st2 := by
              rw [hst2]
              exact applyVerdict_inv st _ v hInv
                (fun b hb => retrieve_not_seen C cfg.topK req st.processed_ids b hb)
                (retrieve_nodup C cfg.topK req st.processed_ids) hval
            cases d with
            | finalize =>
              dsimp only at hs
              simp [prefixRun, finishWith] at hs
              exact hs ▸ hInv2
            | retry =>
              dsimp only at hs
              simp only [prefixRun] at hs
              rcases List.mem_append.mp hs with h1 | h1
              · have h2 : s = st2 := by simpa using h1
                exact h2 ▸ hInv2
              · exact ih st2 (some req) hInv2 s h1

theorem applyVerdict_processed_mono (st : ChatState) (batch : List EvidenceItem)
    (v : Verdict) : ∀ x ∈ st.processed_ids, x ∈ (applyVerdict st batch v).processed_ids := by
  intro x hx
  rw [applyVerdict]
  exact List.mem_append_left _ hx

theorem loop_trace_lower (C : Collaborators) (cfg : Config) :
    ∀ (fuel : Nat) (st : ChatState) (prev : Option String),
      ∀ s ∈ (loop C cfg fuel st prev).trace,
        ∀ x ∈ st.processed_ids, x ∈ s.processed_ids := by
  intro fuel
  induction fuel with
  | zero =>
    intro st prev s hs
    simp [loop, finishWith] at hs
  | succ n ih =>
    intro st prev s hs
    simp only [loop] at hs
    cases hp : C.plan st.user_input st.reviews st.processed_ids with
    | error msg =>
      rw [hp] at hs
      simp [prefixRun, failResult] at hs
    | ok req =>
      rw [hp] at hs
      dsimp only at hs
      by_cases hreq : req = ""
      · rw [if_pos hreq] at hs
        simp [prefixRun, failResult] at hs
      · rw [if_neg hreq] at hs
        by_cases hprev : prev = some req
        · rw [if_pos hprev] at hs
          simp [prefixRun, finishWith] at hs
        · rw [if_neg hprev] at hs
          cases hrev : reviewStep C st (retrieve C cfg.topK req st.processed_ids) with
          | error msg =>
            rw [hrev] at hs
            simp [prefixRun, failResult] at hs
          | ok p =>
            rw [hrev] at hs
            obtain ⟨st2, d⟩ := p
            obtain ⟨v, hvv, hval, hst2, hd⟩ := reviewStep_ok hrev
            have hmono : ∀ x ∈ st.processed_ids, x ∈ st2.processed_ids := by
              rw [hst2]
              exact applyVerdict_processed_mono st _ v
            cases d with
            | finalize =>
              dsimp only at hs
              simp [prefixRun, finishWith] at hs
              exact hs ▸ hmono
            | retry =>
              dsimp only at hs
              simp only [prefixRun] at hs
              rcases List.mem_append.mp hs with h1 | h1
              · have h2 : s = st2 := by simpa using h1
                exact h2 ▸ hmono
              · intro x hx
                exact ih st2 (some req) s h1 x (hmono x hx)

theorem loop_trace_pairwise (C : Collaborators) (cfg : Config) :
    ∀ (fuel : Nat) (st : ChatState) (prev : Option String),
      ((loop C cfg fuel st prev).trace).Pairwise
        (fun a b => ∀ x ∈ a.processed_ids, x ∈ b.processed_ids) := by
  intro fuel
  induction fuel with
  | zero =>
    intro st prev
    simp [loop, finishWith]
  | succ n ih =>
    intro st prev
    simp only [loop]
    cases hp : C.plan st.user_input st.reviews st.processed_ids with
    | error msg =>
      simp [prefixRun, failResult]
    | ok req =>
      dsimp only
      by_cases hreq : req = ""
      · rw [if_pos hreq]
        simp [prefixRun, failResult]
      · rw [if_neg hreq]
        by_cases hprev : prev = some req
        · rw [if_pos hprev]
          simp [prefixRun, finishWith]
        · rw [if_neg hprev]
          cases hrev : reviewStep C st (retrieve C cfg.topK req st.processed_ids) with
          | error msg =>
            simp [prefixRun, failResult]
          | ok p =>
            obtain ⟨st2, d⟩ := p
            cases d with
            | finalize =>
              simp [prefixRun, finishWith]
            | retry =>
              dsimp only [prefixRun]
              rw [List.singleton_append, List.pairwise_cons]
              exact ⟨fun b hb => loop_trace_lower C cfg n st2 (some req) b hb,
                ih st2 (some req)⟩

theorem loop_shape (C : Collaborators) (cfg : Config) :
    ∀ (fuel : Nat) (st : ChatState) (prev : Option String),
      ((loop C cfg fuel st prev).states.count StateTag.planS ≤ fuel) ∧
      ((∃ p, (loop C cfg fuel st prev).states = p ++ [StateTag.doneS]) ∨
        (∃ p, (loop C cfg fuel st prev).states = p ++ [StateTag.failedS])) ∧
      ((loop C cfg fuel st prev).states.count StateTag.doneS +
        (loop C cfg fuel st prev).states.count StateTag.failedS = 1) ∧
      (∃ p, (loop C cfg fuel st prev).events = p ++ [Event.streamEnd]) := by
  intro fuel
  induction fuel with
  | zero =>
    intro st prev
    refine ⟨by simp [loop, finishWith],
      Or.inl ⟨[StateTag.finalizeS], by simp [loop, finishWith]⟩,
      by simp [loop, finishWith],
      ⟨[Event.responseChunk (synthesizeFromState C st).text,
        Event.finalPayload (synthesizeFromState C st).citations st.reviews],
        by simp [loop, finishWith]⟩⟩
  | succ n ih =>
    intro st prev
    simp only [loop]
    cases hp : C.plan st.user_input st.reviews st.processed_ids with
    | error msg =>
      refine ⟨by simp [prefixRun, failResult],
        Or.inr ⟨[StateTag.planS], by simp [prefixRun, failResult]⟩,
        by simp [prefixRun, failResult],
        ⟨[Event.serverError msg], by simp [prefixRun, failResult]⟩⟩
    | ok req =>
      dsimp only
      by_cases hreq : req = ""
      · rw [if_pos hreq]
        refine ⟨by simp [prefixRun, failResult],
          Or.inr ⟨[StateTag.planS], by simp [prefixRun, failResult]⟩,
          by simp [prefixRun, failResult],
          ⟨[Event.serverError "planner could not produce a request"],
            by simp [prefixRun, failResult]⟩⟩
      · rw [if_neg hreq]
        by_cases hprev : prev = some req
        · rw [if_pos hprev]
          refine ⟨by simp [prefixRun, finishWith],
            Or.inl ⟨[StateTag.planS, StateTag.finalizeS], by simp [prefixRun, finishWith]⟩,
            by simp [prefixRun, finishWith],
            ⟨[Event.responseChunk (synthesizeFromState C st).text,
              Event.finalPayload (synthesizeFromState C st).citations st.reviews],
              by simp [prefixRun, finishWith]⟩⟩
        · rw [if_neg hprev]
          cases hrev : reviewStep C st (retrieve C cfg.topK req st.processed_ids) with
          | error msg =>
            refine ⟨by simp [prefixRun, failResult],
              Or.inr ⟨[StateTag.planS, StateTag.actS, StateTag.reviewS],
                by simp [prefixRun, failResult]⟩,
              by simp [prefixRun, failResult],
              ⟨[Event.retrieve req, Event.review "reviewing results", Event.serverError msg],
                by simp [prefixRun, failResult]⟩⟩
          | ok p =>
            obtain ⟨st2, d⟩ := p
            cases d with
            | finalize =>
              refine ⟨by simp [prefixRun, finishWith],
                Or.inl ⟨[StateTag.planS, StateTag.actS, StateTag.reviewS, StateTag.finalizeS],
                  by simp [prefixRun, finishWith]⟩,
                by simp [prefixRun, finishWith],
                ⟨[Event.retrieve req, Event.review "reviewing results",
                  Event.responseChunk (synthesizeFromState C st2).text,
                  Event.finalPayload (synthesizeFromState C st2).citations st2.reviews],
                  by simp [prefixRun, finishWith]⟩⟩
            | retry =>
              obtain ⟨ih1, ih2, ih3, ih4⟩ := ih st2 (some req)
              dsimp only [prefixRun]
              refine ⟨?_, ?_, ?_, ?_⟩
              · rw [List.count_append]
                simp only [List.count_cons, List.count_nil]
                simp
                omega
              · rcases ih2 with ⟨p2, hp2⟩ | ⟨p2, hp2⟩
                · exact Or.inl ⟨[StateTag.planS, StateTag.actS, StateTag.reviewS] ++ p2,
                    by rw [hp2, List.append_assoc]⟩
                · exact Or.inr ⟨[StateTag.planS, StateTag.actS, StateTag.reviewS] ++ p2,
                    by rw [hp2, List.append_assoc]⟩
              · rw [List.count_append, List.count_append]
                simp only [List.count_cons, List.count_nil]
                simp
                omega
              · rcases ih4 with ⟨p4, hp4⟩
                exact ⟨[Event.retrieve req, Event.review "reviewing results"] ++ p4,
                  by rw [hp4, List.append_assoc]⟩

theorem loop_failed (C : Collaborators) (cfg : Config) :
    ∀ (fuel : Nat) (st : ChatState) (prev : Option String) (k : ErrKind) (msg : String),
      (loop C cfg fuel st prev).outcome = Outcome.failed k msg →
      List.IsSuffix [Event.serverError msg, Event.streamEnd]
          (loop C cfg fuel st prev).events ∧
        (loop C cfg fuel st prev).events.all (fun e => !(isAnswerEvent e)) = true := by
  intro fuel
  induction fuel with
  | zero =>
    intro st prev k msg h
    exact absurd h (by simp [loop, finishWith])
  | succ n ih =>
    intro st prev k msg h
    simp only [loop] at h ⊢
    cases hp : C.plan st.user_input st.reviews st.processed_ids with
    | error m =>
      rw [hp] at h
      dsimp only [prefixRun, failResult] at h ⊢
      rw [Outcome.failed.injEq] at h
      rw [← h.2]
      exact ⟨⟨[], rfl⟩, by simp [isAnswerEvent]⟩
    | ok req =>
      rw [hp] at h
      dsimp only at h ⊢
      by_cases hreq : req = ""
      · rw [if_pos hreq] at h ⊢
        dsimp only [prefixRun, failResult] at h ⊢
        rw [Outcome.failed.injEq] at h
        rw [← h.2]
        exact ⟨⟨[], rfl⟩, by simp [isAnswerEvent]⟩
      · rw [if_neg hreq] at h ⊢
        by_cases hprev : prev = some req
        · rw [if_pos hprev] at h
          exact absurd h (by simp [prefixRun, finishWith])
        · rw [if_neg hprev] at h ⊢
          cases hrev : reviewStep C st (retrieve C cfg.topK req st.processed_ids) with
          | error m =>
            rw [hrev] at h
            dsimp only [prefixRun, failResult] at h ⊢
            rw [Outcome.failed.injEq] at h
            rw [← h.2]
            exact ⟨⟨[Event.retrieve req, Event.review "reviewing results"], rfl⟩,
              by simp [isAnswerEvent]⟩
          | ok p =>
            rw [hrev] at h
            obtain ⟨st2, d⟩ := p
            cases d with
            | finalize =>
              exact absurd h (by simp [prefixRun, finishWith])
            | retry =>
              dsimp only [prefixRun] at h ⊢
              obtain ⟨⟨t, ht⟩, hall⟩ := ih st2 (some req) k msg h
              constructor
              · exact ⟨[Event.retrieve req, Event.review "reviewing results"] ++ t,
                  by rw [List.append_assoc, ht]⟩
              · rw [List.all_append]
                rw [hall]
                simp [isAnswerEvent]

theorem loop_final (C : Collaborators) (cfg : Config) :
    ∀ (fuel : Nat) (st : ChatState) (prev : Option String) (s : ChatState),
      (loop C cfg fuel st prev).final = some s →
      (loop C cfg fuel st prev).outcome = Outcome.done (synthesizeFromState C s) := by
  intro fuel
  induction fuel with
  | zero =>
    intro st prev s h
    simp only [loop, finishWith, Option.some.injEq] at h ⊢
    rw [h]
  | succ n ih =>
    intro st prev s h
    simp only [loop] at h ⊢
    cases hp : C.plan st.user_input st.reviews st.processed_ids with
    | error m =>
      rw [hp] at h
      exact absurd h (by simp [prefixRun, failResult])
    | ok req =>
      rw [hp] at h
      dsimp only at h ⊢
      by_cases hreq : req = ""
      · rw [if_pos hreq] at h
        exact absurd h (by simp [prefixRun, failResult])
      · rw [if_neg hreq] at h ⊢
        by_cases hprev : prev = some req
        · rw [if_pos hprev] at h ⊢
          simp only [prefixRun, finishWith, Option.some.injEq] at h ⊢
          rw [h]
        · rw [if_neg hprev] at h ⊢
          cases hrev : reviewStep C st (retrieve C cfg.topK req st.processed_ids) with
          | error m =>
            rw [hrev] at h
            exact absurd h (by simp [prefixRun, failResult])
          | ok p =>
            rw [hrev] at h
            obtain ⟨st2, d⟩ := p
            cases d with
            | finalize =>
              simp only [prefixRun, finishWith, Option.some.injEq] at h ⊢
              rw [h]
            | retry =>
              dsimp only [prefixRun] at h ⊢
              exact ih st2 (some req) s h

/-! ## Concrete collaborators used to certify the claim theorems on
executable inputs -/

def itemA : EvidenceItem :=
  { id := "d1", content := "Q1 2024 financial report", source_file := "fin.pdf",
    source_pages := 3, score := 9 }

def itemB : EvidenceItem :=
  { id := "d2", content := "Q3 2024 financial summary", source_file := "fin2.pdf",
    source_pages := 7, score := 8 }

def demoCfg : Config := { maxAttempts := 3, topK := 5 }

/-- A two-iteration session: first batch accepted with a retry, second
batch accepted with a finalize. -/
def demoCollab : Collaborators :=
  { plan := fun _ revs _ =>
      Except.ok (if revs.isEmpty then "financials 2024" else "Q3 2024 financials"),
    search := fun q _ => Except.ok (if q = "financials 2024" then [itemA] else [itemB]),
    reviewVerdict := fun _ batch =>
      Except.ok { thought_process := "found evidence",
                  valid_results := if batch.isEmpty then [] else [0],
                  invalid_results := [],
                  decision := if batch = [itemA] then Decision.retry else Decision.finalize },
    synthesizeText := fun _ _ => "final answer" }

/-- A session that never accepts evidence and stalls on a repeated plan. -/
def emptyCollab : Collaborators :=
  { plan := fun _ _ _ => Except.ok "q1",
    search := fun _ _ => Except.ok [],
    reviewVerdict := fun _ _ =>
      Except.ok { thought_process := "no results", valid_results := [],
                  invalid_results := [], decision := Decision.retry },
    synthesizeText := fun _ _ => "unused" }

/-- A session whose completion collaborator fails immediately. -/
def failCollab : Collaborators :=
  { plan := fun _ _ _ => Except.error "completion service unavailable",
    search := fun _ _ => Except.ok [],
    reviewVerdict := fun _ _ => Except.error "unused",
    synthesizeText := fun _ _ => "unused" }

/-! ## Claim theorems for the controller -/

/-- C1: for any session, the number of PLAN entries is at most
`max_attempts`; the state sequence always terminates in exactly one of
DONE or FAILED; and the `end` event is always the final event emitted on
the stream, regardless of success or failure. -/
theorem controller_terminates (C : Collaborators) (cfg : Config) (q : String) :
    ((run C cfg q).states.count StateTag.planS ≤ cfg.maxAttempts) ∧
    ((run C cfg q).states.getLast? = some StateTag.doneS ∨
      (run C cfg q).states.getLast? = some StateTag.failedS) ∧
    ((run C cfg q).states.count StateTag.doneS +
      (run C cfg q).states.count StateTag.failedS = 1) ∧
    ((run C cfg q).events.getLast? = some Event.streamEnd) := by
  obtain ⟨h1, h2, h3, h4⟩ := loop_shape C cfg cfg.maxAttempts (initState q) none
  refine ⟨?_, ?_, ?_, ?_⟩
  · have : (run C cfg q).states.count StateTag.planS =
        (loop C cfg cfg.maxAttempts (initState q) none).states.count StateTag.planS := by
      simp [run, prefixRun, List.count_cons]
    rw [this]; exact h1
  · rcases h2 with ⟨p, hp⟩ | ⟨p, hp⟩
    · left
      have : (run C cfg q).states = (StateTag.initS :: p) ++ [StateTag.doneS] := by
        simp [run, prefixRun, hp]
      rw [this, List.getLast?_concat]
    · right
      have : (run C cfg q).states = (StateTag.initS :: p) ++ [StateTag.failedS] := by
        simp [run, prefixRun, hp]
      rw [this, List.getLast?_concat]
  · have hd : (run C cfg q).states.count StateTag.doneS =
        (loop C cfg cfg.maxAttempts (initState q) none).states.count StateTag.doneS := by
      simp [run, prefixRun, List.count_cons]
    have hf : (run C cfg q).states.count StateTag.failedS =
        (loop C cfg cfg.maxAttempts (initState q) none).states.count StateTag.failedS := by
      simp [run, prefixRun, List.count_cons]
    rw [hd, hf]; exact h3
  · rcases h4 with ⟨p, hp⟩
    have : (run C cfg q).events = p ++ [Event.streamEnd] := by
      simp [run, prefixRun, hp]
    rw [this, List.getLast?_concat]

/-- C2: at every completion of a REVIEW step, the AcceptedSet
(`vetted_results`) and RejectedSet (`discarded_results`) are disjoint, and
the union of their identifiers is a subset of the SeenSet
(`processed_ids`), for every session and iteration. -/
theorem review_partition_invariant (C : Collaborators) (cfg : Config) (q : String)
    (s : ChatState) (hs : s ∈ (run C cfg q).trace) :
    (∀ a ∈ s.vetted_results, a.id ∉ s.discarded_results.map EvidenceItem.id) ∧
    (∀ a ∈ s.vetted_results, a.id ∈ s.processed_ids) ∧
    (∀ a ∈ s.discarded_results, a.id ∈ s.processed_ids) := by
  have hinit : Inv (initState q) :=
    ⟨by simp [initState], by simp [initState], by simp [initState]⟩
  exact loop_trace_inv C cfg cfg.maxAttempts (initState q) none hinit s
    (by simpa [run, prefixRun] using hs)

/-- C2 witness. -/
theorem review_partition_invariant_witness :
    EvidenceItem.id itemA ∈
      ((run demoCollab demoCfg "show financials").trace.headD
        (initState "show financials")).processed_ids :=
  (review_partition_invariant demoCollab demoCfg "show financials"
      ((run demoCollab demoCfg "show financials").trace.headD
        (initState "show financials"))
      (by decide)).2.1 itemA (by decide)

/-- C3: within a session, the SeenSet is monotonically non-decreasing:
for review completions i ≤ j, every identifier seen at iteration i is
still seen at iteration j. -/
theorem seenset_monotone (C : Collaborators) (cfg : Config) (q : String)
    (i j : Fin (run C cfg q).trace.length) (hij : (i : Nat) ≤ (j : Nat)) (x : String)
    (hx : x ∈ ((run C cfg q).trace.get i).processed_ids) :
    x ∈ ((run C cfg q).trace.get j).processed_ids := by
  rcases Nat.lt_or_ge (j : Nat) ((i : Nat) + 1) with hle | hlt
  · have hij2 : i = j := Fin.ext (Nat.le_antisymm hij (by omega))
    rw [← hij2]; exact hx
  · have hpw : ((run C cfg q).trace).Pairwise
        (fun a b => ∀ y ∈ a.processed_ids, y ∈ b.processed_ids) := by
      have := loop_trace_pairwise C cfg cfg.maxAttempts (initState q) none
      simpa [run, prefixRun] using this
    exact (List.pairwise_iff_get.mp hpw i j (by omega)) x hx

/-- C3 witness. -/
theorem seenset_monotone_witness :
    "d1" ∈ (((run demoCollab demoCfg "show financials").trace.get
        ⟨1, by decide⟩).processed_ids) :=
  seenset_monotone demoCollab demoCfg "show financials" ⟨0, by decide⟩ ⟨1, by decide⟩
    (by decide) "d1" (by decide)

/-- C4: for every query and exclusion set, the Retriever returns at most
`topK` items and never an item whose identifier is in the exclusion set. -/
theorem retriever_contract (C : Collaborators) (topK : Nat) (q : String)
    (seen : List String) :
    (retrieve C topK q seen).length ≤ topK ∧
      ∀ x ∈ retrieve C topK q seen, x.id ∉ seen :=
  ⟨retrieve_length C topK q seen,
    fun x hx => retrieve_not_seen C topK q seen x hx⟩

/-- C4 witness. -/
theorem retriever_contract_witness : EvidenceItem.id itemA ∉ ["zz"] :=
  (retriever_contract demoCollab 5 "financials 2024" ["zz"]).2 itemA (by decide)

/-- C5: if the session finalizes (in particular by reaching `max_attempts`)
with an empty AcceptedSet, the Synthesizer output explicitly signals
insufficient evidence rather than fabricating a confident answer. -/
theorem forced_finalize_insufficiency (C : Collaborators) (cfg : Config) (q : String)
    (s : ChatState) (hfin : (run C cfg q).final = some s)
    (hempty : s.vetted_results = []) :
    (run C cfg q).outcome =
      Outcome.done { text := insufficientMessage, citations := [],
                     insufficient := true } := by
  have h := loop_final C cfg cfg.maxAttempts (initState q) none s
    (by simpa [run, prefixRun] using hfin)
  have h2 : (run C cfg q).outcome = Outcome.done (synthesizeFromState C s) := by
    simpa [run, prefixRun] using h
  rw [h2]
  simp [synthesizeFromState, hempty]

/-- C5 witness. -/
theorem forced_finalize_insufficiency_witness :
    (run emptyCollab demoCfg "q").outcome =
      Outcome.done { text := insufficientMessage, citations := [],
                     insufficient := true } :=
  forced_finalize_insufficiency emptyCollab demoCfg "q"
    ((run emptyCollab demoCfg "q").final.getD (initState "q"))
    (by decide) (by decide)

/-- C6: retrieval and execution collaborator errors are recoverable — they
become an empty (negative) evidence batch for the Reviewer instead of a
failure; unrecoverable errors (generation, review-parse, planning-stalled
— the only failure kinds) abort the session with `server-error` then
`end`, and a failed run emits no `response_chunk` or `final_payload`. -/
theorem error_propagation_policy (C : Collaborators) (cfg : Config) (q : String) :
    (∀ (query : String) (seen : List String) (e : String),
        C.search query seen = Except.error e → retrieve C cfg.topK query seen = []) ∧
    (∀ (k : ErrKind) (msg : String),
        (run C cfg q).outcome = Outcome.failed k msg →
        List.IsSuffix [Event.serverError msg, Event.streamEnd] (run C cfg q).events ∧
          ((run C cfg q).events.all (fun e => !(isAnswerEvent e))) = true) := by
  constructor
  · intro query seen e he
    exact retrieve_of_search_error C cfg.topK query seen e he
  · intro k msg h
    have h2 := loop_failed C cfg cfg.maxAttempts (initState q) none k msg
      (by simpa [run, prefixRun] using h)
    constructor
    · have he : (run C cfg q).events =
          (loop C cfg cfg.maxAttempts (initState q) none).events := by
        simp [run, prefixRun]
      rw [he]; exact h2.1
    · have he : (run C cfg q).events =
          (loop C cfg cfg.maxAttempts (initState q) none).events := by
        simp [run, prefixRun]
      rw [he]; exact h2.2

/-- C6 witness. -/
theorem error_propagation_policy_witness :
    List.IsSuffix [Event.serverError "completion service unavailable", Event.streamEnd]
        (run failCollab demoCfg "q").events ∧
      ((run failCollab demoCfg "q").events.all (fun e => !(isAnswerEvent e))) = true :=
  (error_propagation_policy failCollab demoCfg "q").2 ErrKind.generation
    "completion service unavailable" (by decide)

/-- C7: whenever the Planner returns a request byte-identical to the
immediately preceding one, the Controller's next transition is to FINALIZE
— it never performs another retrieval iteration. -/
theorem stall_forces_finalize (C : Collaborators) (cfg : Config) (fuel : Nat)
    (st : ChatState) (req : String)
    (h1 : C.plan st.user_input st.reviews st.processed_ids = Except.ok req)
    (h2 : req ≠ "") :
    (loop C cfg (fuel + 1) st (some req)).states =
        [StateTag.planS, StateTag.finalizeS, StateTag.doneS] ∧
      StateTag.actS ∉ (loop C cfg (fuel + 1) st (some req)).states ∧
      (loop C cfg (fuel + 1) st (some req)).outcome =
        Outcome.done (synthesizeFromState C st) := by
  simp only [loop]
  rw [h1]
  dsimp only
  rw [if_neg h2, if_pos rfl]
  refine ⟨by simp [prefixRun, finishWith], ?_, by simp [prefixRun, finishWith]⟩
  simp [prefixRun, finishWith]

/-- C7 witness. -/
theorem stall_forces_finalize_witness :
    (loop emptyCollab demoCfg 2 (initState "q") (some "q1")).states =
        [StateTag.planS, StateTag.finalizeS, StateTag.doneS] ∧
      StateTag.actS ∉ (loop emptyCollab demoCfg 2 (initState "q") (some "q1")).states ∧
      (loop emptyCollab demoCfg 2 (initState "q") (some "q1")).outcome =
        Outcome.done (synthesizeFromState emptyCollab (initState "q")) :=
  stall_forces_finalize emptyCollab demoCfg 1 (initState "q") "q1" rfl (by decide)

/-- C8: the Synthesizer is deterministic — it depends only on the question
and the AcceptedSet in its stored order — and every citation it produces
references an item of the AcceptedSet. -/
theorem synthesizer_deterministic (C : Collaborators) (st1 st2 : ChatState)
    (hq : st1.user_input = st2.user_input)
    (hv : st1.vetted_results = st2.vetted_results) :
    synthesizeFromState C st1 = synthesizeFromState C st2 ∧
      ∀ c ∈ (synthesizeFromState C st1).citations,
        ∃ r ∈ st1.vetted_results, c = mkRef r := by
  constructor
  · rw [synthesizeFromState, synthesizeFromState, hq, hv]
  · intro c hc
    rw [synthesizeFromState] at hc
    by_cases he : st1.vetted_results.isEmpty
    · rw [if_pos he] at hc; simp at hc
    · rw [if_neg he] at hc
      rcases List.mem_map.mp hc with ⟨r, hr, hcr⟩
      exact ⟨r, hr, hcr.symm⟩

def stDemo1 : ChatState :=
  { user_input := "q", current_results := [], vetted_results := [itemA],
    discarded_results := [], processed_ids := ["d1"], reviews := [],
    final_answer := none }

def stDemo2 : ChatState :=
  { user_input := "q", current_results := [itemB], vetted_results := [itemA],
    discarded_results := [itemB], processed_ids := ["d1", "d2"],
    reviews := ["different history"], final_answer := none }

/-- C8 witness. -/
theorem synthesizer_deterministic_witness :
    synthesizeFromState demoCollab stDemo1 = synthesizeFromState demoCollab stDemo2 :=
  (synthesizer_deterministic demoCollab stDemo1 stDemo2 rfl rfl).1

/-! ## Lemmas about `parseCitTags` -/

theorem processTokens_lit (acc : List Citation) (c : Char) (ts : List Tok) :
    processTokens (Tok.lit c :: ts) acc =
      (c :: (processTokens ts acc).1, (processTokens ts acc).2) := rfl

theorem processTokens_tag_found {acc : List Citation} {c0 : Citation} {raw : String}
    (ts : List Tok)
    (hfind : acc.find? (fun c => c.display_text == raw.trim) = some c0) :
    processTokens (Tok.tag raw :: ts) acc =
      (markerChars c0.reference_number ++ (processTokens ts acc).1,
        (processTokens ts acc).2) := by
  simp [processTokens, hfind]

theorem processTokens_tag_new {acc : List Citation} {raw : String} (ts : List Tok)
    (hfind : acc.find? (fun c => c.display_text == raw.trim) = none) :
    processTokens (Tok.tag raw :: ts) acc =
      (markerChars (acc.length + 1) ++
        (processTokens ts (acc ++ [buildCitation raw.trim (acc.length + 1)])).1,
       (processTokens ts (acc ++ [buildCitation raw.trim (acc.length + 1)])).2) := by
  simp [processTokens, hfind]

theorem refIndex_append_of_mem (d : String) :
    ∀ (xs ys : List String) (n : Nat), d ∈ xs →
      refIndex d (xs ++ ys) n = refIndex d xs n := by
  intro xs
  induction xs with
  | nil => intro ys n h; simp at h
  | cons x xs ih =>
    intro ys n h
    by_cases hx : x = d
    · simp [refIndex, hx]
    · rw [List.cons_append]
      simp only [refIndex]
      rw [if_neg hx, if_neg hx]
      refine ih ys (n + 1) ?_
      rcases List.mem_cons.mp h with h1 | h1
      · exact absurd h1.symm hx
      · exact h1

theorem refIndex_append_self (d : String) :
    ∀ (xs ys : List String) (n : Nat), d ∉ xs →
      refIndex d (xs ++ d :: ys) n = some (n + xs.length) := by
  intro xs
  induction xs with
  | nil => intro ys n h; simp [refIndex]
  | cons x xs ih =>
    intro ys n h
    have hx : ¬ x = d := fun he => h (List.mem_cons.mpr (Or.inl he.symm))
    rw [List.cons_append]
    simp only [refIndex]
    rw [if_neg hx]
    rw [ih ys (n + 1) (fun hd => h (List.mem_cons_of_mem _ hd))]
    rw [List.length_cons]
    congr 1
    omega

theorem find?_refIndex (d : String) :
    ∀ (acc : List Citation) (n : Nat), RefSeq acc n →
      ((acc.find? (fun c => c.display_text == d)).map Citation.reference_number) =
        refIndex d (acc.map Citation.display_text) n := by
  intro acc
  induction acc with
  | nil => intro n _; simp [refIndex]
  | cons c cs ih =>
    intro n h
    obtain ⟨hc, hcs⟩ := h
    by_cases hd : c.display_text = d
    · rw [List.find?_cons_of_pos _ (by simp [hd])]
      simp only [List.map_cons, refIndex]
      rw [if_pos hd]
      simp [hc]
    · rw [List.find?_cons_of_neg _ (by simp [hd])]
      simp only [List.map_cons, refIndex]
      rw [if_neg hd]
      exact ih (n + 1) hcs

theorem RefSeq_append (c : Citation) :
    ∀ (l : List Citation) (n : Nat), RefSeq l n →
      c.reference_number = n + l.length → RefSeq (l ++ [c]) n := by
  intro l
  induction l with
  | nil =>
    intro n _ hc
    exact ⟨by simpa using hc, trivial⟩
  | cons a as ih =>
    intro n h hc
    obtain ⟨ha, has⟩ := h
    refine ⟨ha, ih (n + 1) has ?_⟩
    rw [hc, List.length_cons]
    omega

theorem dedupFrom_nodup :
    ∀ (l seen : List String), seen.Nodup → (seen ++ dedupFrom seen l).Nodup := by
  intro l
  induction l with
  | nil => intro seen h; simpa [dedupFrom] using h
  | cons d ds ih =>
    intro seen h
    by_cases hd : d ∈ seen
    · rw [dedupFrom, if_pos hd]
      exact ih seen h
    · rw [dedupFrom, if_neg hd]
      have h2 : (seen ++ [d]).Nodup := by
        rw [List.nodup_append]
        refine ⟨h, by simp, ?_⟩
        intro a ha hb
        rw [List.mem_singleton] at hb
        exact hd (hb ▸ ha)
      have h3 := ih (seen ++ [d]) h2
      rw [List.append_assoc] at h3
      simpa using h3

theorem processTokens_spec :
    ∀ (toks : List Tok) (acc : List Citation), RefSeq acc 1 →
      (acc.map Citation.display_text).Nodup →
      ((processTokens toks acc).2.map Citation.display_text =
        acc.map Citation.display_text ++
          dedupFrom (acc.map Citation.display_text) (tagDisplays toks)) ∧
      RefSeq (processTokens toks acc).2 1 ∧
      (processTokens toks acc).1 =
        specRenderFrom
          (acc.map Citation.display_text ++
            dedupFrom (acc.map Citation.display_text) (tagDisplays toks)) toks := by
  intro toks
  induction toks with
  | nil =>
    intro acc h1 h2
    refine ⟨by simp [processTokens, tagDisplays, dedupFrom],
      by simpa [processTokens] using h1,
      by simp [processTokens, tagDisplays, dedupFrom, specRenderFrom]⟩
  | cons t ts ih =>
    intro acc h1 h2
    cases t with
    | lit c =>
      obtain ⟨g1, g2, g3⟩ := ih acc h1 h2
      rw [processTokens_lit]
      refine ⟨?_, ?_, ?_⟩
      · simpa [tagDisplays] using g1
      · exact g2
      · simp only [tagDisplays, specRenderFrom]
        rw [g3]
    | tag raw =>
      cases hfind : acc.find? (fun c => c.display_text == raw.trim) with
      | some c0 =>
        have hp := List.find?_some hfind
        have hc0d : c0.display_text = raw.trim := by simpa using hp
        have hdmem : raw.trim ∈ acc.map Citation.display_text :=
          hc0d ▸ List.mem_map_of_mem _ (List.mem_of_find?_eq_some hfind)
        obtain ⟨g1, g2, g3⟩ := ih acc h1 h2
        have hded : dedupFrom (acc.map Citation.display_text)
            (tagDisplays (Tok.tag raw :: ts)) =
            dedupFrom (acc.map Citation.display_text) (tagDisplays ts) := by
          rw [tagDisplays, dedupFrom, if_pos hdmem]
        rw [processTokens_tag_found ts hfind, hded]
        refine ⟨g1, g2, ?_⟩
        rw [g3]
        simp only [specRenderFrom]
        congr 2
        have hri : refIndex raw.trim (acc.map Citation.display_text ++
            dedupFrom (acc.map Citation.display_text) (tagDisplays ts)) 1 =
            some c0.reference_number := by
          rw [refIndex_append_of_mem raw.trim _ _ 1 hdmem,
            ← find?_refIndex raw.trim acc 1 h1, hfind]
          rfl
        rw [hri]
        rfl
      | none =>
        have hdnot : raw.trim ∉ acc.map Citation.display_text := by
          intro hmem
          rcases List.mem_map.mp hmem with ⟨c0, hc0, hcd⟩
          have h5 := List.find?_eq_none.mp hfind c0 hc0
          simp [hcd] at h5
        have href : (buildCitation raw.trim (acc.length + 1)).reference_number =
            acc.length + 1 := rfl
        have hdisp : (buildCitation raw.trim (acc.length + 1)).display_text =
            raw.trim := rfl
        have h1x : RefSeq (acc ++ [buildCitation raw.trim (acc.length + 1)]) 1 :=
          RefSeq_append _ acc 1 h1 (by rw [href]; omega)
        have h2x : ((acc ++ [buildCitation raw.trim (acc.length + 1)]).map
            Citation.display_text).Nodup := by
          rw [List.map_append, List.nodup_append]
          refine ⟨h2, by simp, ?_⟩
          intro a ha hb
          simp only [List.map_cons, List.map_nil, List.mem_singleton, hdisp] at hb
          exact hdnot (hb ▸ ha)
        obtain ⟨g1, g2, g3⟩ := ih (acc ++ [buildCitation raw.trim (acc.length + 1)]) h1x h2x
        have hdacc : (acc ++ [buildCitation raw.trim (acc.length + 1)]).map
            Citation.display_text = acc.map Citation.display_text ++ [raw.trim] := by
          rw [List.map_append]
          simp [hdisp]
        have hded : dedupFrom (acc.map Citation.display_text)
            (tagDisplays (Tok.tag raw :: ts)) =
            raw.trim ::
              dedupFrom (acc.map Citation.display_text ++ [raw.trim]) (tagDisplays ts) := by
          rw [tagDisplays, dedupFrom, if_neg hdnot]
        have hfinal : acc.map Citation.display_text ++
            dedupFrom (acc.map Citation.display_text) (tagDisplays (Tok.tag raw :: ts)) =
            (acc.map Citation.display_text ++ [raw.trim]) ++
              dedupFrom (acc.map Citation.display_text ++ [raw.trim]) (tagDisplays ts) := by
          rw [hded, List.append_assoc]
          rfl
        rw [processTokens_tag_new ts hfind]
        refine ⟨?_, g2, ?_⟩
        · rw [g1, hdacc, hfinal]
        · rw [g3, hdacc, hfinal]
          simp only [specRenderFrom]
          congr 2
          have hri : refIndex raw.trim
              ((acc.map Citation.display_text ++ [raw.trim]) ++
                dedupFrom (acc.map Citation.display_text ++ [raw.trim]) (tagDisplays ts)) 1 =
              some (1 + (acc.map Citation.display_text).length) := by
            rw [List.append_assoc, List.singleton_append]
            exact refIndex_append_self raw.trim _ _ 1 hdnot
          rw [hri]
          simp only [Option.getD_some, List.length_map]
          omega

/-- C9: `parseCitTags` replaces each `<cit>…</cit>` tag with a bracketed
numeric marker, assigns reference numbers 1, 2, 3, … in order of first
appearance, reuses the same number for every later occurrence of an
identical (trimmed) display text, and returns exactly one citation entry
per distinct display text, whose `reference_number` equals its 1-based
position in the citations array. -/
theorem parseCitTags_correct (text : String) :
    ((parseCitTags text).2.map Citation.display_text =
      dedupFrom [] (tagDisplays (tokenize text.data))) ∧
    ((parseCitTags text).2.map Citation.display_text).Nodup ∧
    RefSeq (parseCitTags text).2 1 ∧
    (parseCitTags text).1 =
      String.mk (specRenderFrom (dedupFrom [] (tagDisplays (tokenize text.data)))
        (tokenize text.data)) := by
  obtain ⟨g1, g2, g3⟩ :=
    processTokens_spec (tokenize text.data) [] trivial (by simp)
  simp only [List.map_nil, List.nil_append] at g1 g3
  refine ⟨?_, ?_, ?_, ?_⟩
  · simpa [parseCitTags] using g1
  · have hnd := dedupFrom_nodup (tagDisplays (tokenize text.data)) [] (by simp)
    rw [List.nil_append] at hnd
    have hg : (parseCitTags text).2.map Citation.display_text =
        dedupFrom [] (tagDisplays (tokenize text.data)) := by
      simpa [parseCitTags] using g1
    rw [hg]
    exact hnd
  · simpa [parseCitTags] using g2
  · simp only [parseCitTags]
    rw [g3]

/-! ## Claim theorem for the SSE handlers -/

/-- C10: for the `retrieve`, `review`, `response_chunk` and `final_payload`
events, if the event data is not valid JSON (`safeParseJSON` yields `null`
instead of throwing) or lacks the expected field (`message`, `chunk`,
`payload` respectively), the handler performs no update: messages and the
accumulated response text are unchanged (the handlers are total functions,
so no exception escapes). -/
theorem event_handlers_ignore_invalid (parse : String → Except String JSVal)
    (d : String) (s : UIState) :
    (safeParseJSON parse d = JSVal.null →
      onRetrieve parse d s = s ∧ onReview parse d s = s ∧
        onResponseChunk parse d s = s ∧ onFinalPayload parse d s = s) ∧
    (jsGet (safeParseJSON parse d) "message" = none →
      onRetrieve parse d s = s ∧ onReview parse d s = s) ∧
    (jsGet (safeParseJSON parse d) "chunk" = none → onResponseChunk parse d s = s) ∧
    (jsGet (safeParseJSON parse d) "payload" = none → onFinalPayload parse d s = s) := by
  refine ⟨?_, ?_, ?_, ?_⟩
  · intro h
    refine ⟨?_, ?_, ?_, ?_⟩ <;>
      simp [onRetrieve, onReview, onResponseChunk, onFinalPayload, h, jsGet, truthy]
  · intro h
    constructor <;> simp [onRetrieve, onReview, h, truthy]
  · intro h
    simp [onResponseChunk, h, truthy]
  · intro h
    simp [onFinalPayload, h, truthy]

def badParse : String → Except String JSVal := fun _ => Except.error "SyntaxError"

def demoUI : UIState :=
  { messages := [], responseText := "", currentCitations := none,
    currentThoughtProcess := none }

/-- C10 witness. -/
theorem event_handlers_ignore_invalid_witness :
    onRetrieve badParse "not json" demoUI = demoUI ∧
      onReview badParse "not json" demoUI = demoUI ∧
      onResponseChunk badParse "not json" demoUI = demoUI ∧
      onFinalPayload badParse "not json" demoUI = demoUI :=
  (event_handlers_ignore_invalid badParse "not json" demoUI).1 rfl

end RagRunner
